import Mathlib

/-!
# Verification of the keydso appointment-management core

Shallow embedding of the storage layer (`DatabaseStorage` in the server
storage module) and the HTTP request boundary (`server/routes.ts`) of the
keydso repository, together with proofs of the specification claims.

Modelling conventions:
* JavaScript `number` ids are modelled as `Int` (every id the boundary
  produces via `parseInt` is an integer, and the store's
  `Number.isInteger` guard is identically true on this domain, leaving
  only the `id < 1` check).
* Database tables are modelled as lists of rows; the Postgres `serial`
  id is modelled by `freshId` (one more than the maximum present id),
  and primary-key uniqueness violations surface as `Except.error`.
* `Buffer`s (PDF bytes, scrypt output) are `List Nat`, each entry < 256.
* The wall clock (`new Date().toISOString()`) is passed in explicitly as
  a `now : String` argument.
-/

/-- `bookingDetails` JSON column: `{ date: string }`. -/
structure BookingDetails where
  date : String
deriving DecidableEq, Repr

/-- Row of the `appointments` table (shared schema). -/
structure Appointment where
  id : Int
  clientId : Int
  teamId : Int
  status : String
  collectedBy : Int
  approvedBy : Option Int
  pdfUrl : Option String
  bookingDetails : BookingDetails
  createdAt : String
deriving DecidableEq, Repr

/-- Row of the `users` table (shared schema). -/
structure User where
  id : Int
  username : String
  password : String
  role : String
  createdBy : Option Int
  teamId : Option Int
deriving DecidableEq, Repr

/-- Row of the `teams` table (shared schema). -/
structure Team where
  id : Int
  name : String
  description : Option String
  createdBy : Int
  createdAt : String
deriving DecidableEq, Repr

/-- Row of the `team_members` table (shared schema). -/
structure TeamMember where
  id : Int
  teamId : Int
  userId : Int
  addedBy : Int
  addedAt : String
deriving DecidableEq, Repr

/-- Row of the `clients` table (shared schema). -/
structure Client where
  id : Int
  passportNumber : String
  fullName : String
  phoneNumber : String
  email : String
  nationalId : String
  passportImage : String
  workType : String
  workplace : String
  gender : String
deriving DecidableEq, Repr

/-- The persistent state owned by `DatabaseStorage`: the relational
tables plus the in-memory `pdfStorage : Map<number, Buffer>` (modelled
as an association list in insertion order, as a JS `Map` iterates). -/
structure DB where
  users : List User
  teams : List Team
  teamMembers : List TeamMember
  clients : List Client
  appointments : List Appointment
  pdfStorage : List (Int × List Nat)
deriving DecidableEq, Repr

/-- The empty database. -/
def DB.empty : DB := ⟨[], [], [], [], [], []⟩

/-- `insertAppointmentSchema = createInsertSchema(appointments)`: the
serial `id` becomes optional, nullable columns (`approvedBy`, `pdfUrl`)
become optional, `NOT NULL` columns stay required. -/
structure InsertAppointment where
  id : Option Int
  clientId : Int
  teamId : Int
  status : String
  collectedBy : Int
  approvedBy : Option Int
  pdfUrl : Option String
  bookingDetails : BookingDetails
  createdAt : String
deriving DecidableEq, Repr

namespace DatabaseStorage

/-- Next id handed out by the `serial` column: one more than the largest
id present, so it never collides with an existing row. -/
def freshId (rows : List Appointment) : Int :=
  (rows.foldr (fun a m => max a.id m) 0) + 1

/-- `getUser(id)`: `db.select().from(users).where(eq(users.id, id))`.
Note: unlike `getTeam`/`getClient`/`getAppointment`, the source has no
`Number.isInteger(id) || id < 1` guard here — the id goes straight into
the query. -/
def getUser (db : DB) (id : Int) : Option User :=
  db.users.find? (fun u => u.id = id)

/-- `getTeam(id)`: guarded by `if (!Number.isInteger(id) || id < 1)
return undefined` before the select. -/
def getTeam (db : DB) (id : Int) : Option Team :=
  if id < 1 then none else db.teams.find? (fun t => t.id = id)

/-- `getClient(id)`: same positive-integer guard, then select. -/
def getClient (db : DB) (id : Int) : Option Client :=
  if id < 1 then none else db.clients.find? (fun c => c.id = id)

/-- `getAppointment(id)`: same positive-integer guard, then select. -/
def getAppointment (db : DB) (id : Int) : Option Appointment :=
  if id < 1 then none else db.appointments.find? (fun a => a.id = id)

/-- `updateUserTeam(userId, teamId)`: `UPDATE users SET team_id = $1
WHERE id = userId`. -/
def updateUserTeam (db : DB) (userId : Int) (teamId : Option Int) : DB :=
  { db with users :=
      db.users.map (fun u => if u.id = userId then { u with teamId := teamId } else u) }

/-- `removeTeamMember(teamId, userId)`: the body is exactly
`await this.updateUserTeam(userId, null)` — the `teamId` argument is
ignored and no `team_members` row is touched. -/
def removeTeamMember (db : DB) (_teamId : Int) (userId : Int) : DB :=
  updateUserTeam db userId none

/-- `createAppointment(insertAppointment)`: inserts
`{...insertAppointment, bookingDetails: { date: new Date().toISOString() }}`
and returns the inserted row.  An explicit client-supplied id that
collides with an existing row is a primary-key violation (the insert
throws). -/
def createAppointment (db : DB) (ins : InsertAppointment) (now : String) :
    Except String (Appointment × DB) :=
  let id := ins.id.getD (freshId db.appointments)
  if db.appointments.any (fun a => a.id = id) then
    .error "duplicate key value violates unique constraint"
  else
    let a : Appointment :=
      { id := id, clientId := ins.clientId, teamId := ins.teamId,
        status := ins.status, collectedBy := ins.collectedBy,
        approvedBy := ins.approvedBy, pdfUrl := ins.pdfUrl,
        bookingDetails := { date := now }, createdAt := ins.createdAt }
    .ok (a, { db with appointments := db.appointments ++ [a] })

/-- `updateAppointment(id, update)`: throws `"Invalid appointment ID"`
when the id fails the positive-integer guard, otherwise
`UPDATE appointments SET ... WHERE id = $id RETURNING *`.  Both call
sites pass a fully merged record (spread of the existing row), so the
update is modelled as a full-record replace; when no row matches, the
`RETURNING` list is empty and the source returns `undefined`, modelled
as `none`.  Changing the primary key onto an id already present is a
uniqueness violation. -/
def updateAppointment (db : DB) (id : Int) (rec : Appointment) :
    Except String (Option Appointment × DB) :=
  if id < 1 then .error "Invalid appointment ID"
  else
    match db.appointments.find? (fun a => a.id = id) with
    | none => .ok (none, db)
    | some _ =>
      if rec.id ≠ id ∧ db.appointments.any (fun a => a.id = rec.id) then
        .error "duplicate key value violates unique constraint"
      else
        .ok (some rec,
          { db with appointments :=
              db.appointments.map (fun a => if a.id = id then rec else a) })

/-- JS `Map.set`: replace in place if the key is present, else append. -/
def mapSet (m : List (Int × List Nat)) (k : Int) (v : List Nat) :
    List (Int × List Nat) :=
  match m with
  | [] => [(k, v)]
  | (k', v') :: rest =>
    if k' = k then (k, v) :: rest else (k', v') :: mapSet rest k v

/-- `storePdf(appointmentId, pdfBuffer)`: `this.pdfStorage.set(...)`. -/
def storePdf (db : DB) (appointmentId : Int) (pdfBuffer : List Nat) : DB :=
  { db with pdfStorage := mapSet db.pdfStorage appointmentId pdfBuffer }

/-- `getPdf(appointmentId)`: `this.pdfStorage.get(...)`. -/
def getPdf (db : DB) (appointmentId : Int) : Option (List Nat) :=
  (db.pdfStorage.find? (fun p => p.1 = appointmentId)).map (fun p => p.2)

end DatabaseStorage

/-! ## Request boundary (`server/routes.ts`) -/

/-- The authenticated session user (`req.user`): only `id` and `role`
are consulted by the appointment handlers. -/
structure SessionUser where
  id : Int
  role : String
deriving DecidableEq, Repr

/-- Observable HTTP outcome of a handler. -/
inductive Response where
  /-- `res.sendStatus(n)` — bare status code with its default text. -/
  | status : Nat → Response
  /-- `res.status(400).send(msg)` — bad-input rejection with a message. -/
  | badRequest : String → Response
  /-- `res.json(appointment)` (with 200/201). -/
  | jsonAppointment : Appointment → Response
  /-- `res.json(undefined)` — serialising a missing record. -/
  | jsonNull : Response
  /-- PDF bytes streamed with `Content-Type: application/pdf`. -/
  | pdf : List Nat → Response
  /-- An exception escaped the handler (zod parse failure, storage throw). -/
  | serverError : String → Response
deriving DecidableEq, Repr

/-- JS `parseInt(s, 10)`: optional sign, then the longest leading run of
decimal digits; `NaN` (here `none`) when that run is empty. -/
def parseInt10 (s : String) : Option Int :=
  let p : Bool × List Char :=
    match s.toList with
    | '-' :: r => (true, r)
    | '+' :: r => (false, r)
    | r => (false, r)
  let ds := p.2.takeWhile (fun c => decide ('0' ≤ c) && decide (c ≤ '9'))
  if ds.isEmpty then none
  else
    let n : Nat := ds.foldl (fun acc c => acc * 10 + (c.toNat - 48)) 0
    some (if p.1 then -(n : Int) else (n : Int))

/-- `parseId(id)`: `parseInt(id, 10)`, mapping `NaN` to `null`.  Note it
performs no positivity check: `"0"` and `"-5"` parse successfully. -/
def parseId (s : String) : Option Int := parseInt10 s

/-- The appointment-shaped part of an untyped request body: each column
that may appear, or `none` when absent.  (zod strips unknown keys, so
extra fields are irrelevant; wrongly typed fields fail the parse just as
missing required ones do.) -/
structure AppointmentBody where
  id : Option Int := none
  clientId : Option Int := none
  teamId : Option Int := none
  status : Option String := none
  collectedBy : Option Int := none
  approvedBy : Option (Option Int) := none
  pdfUrl : Option (Option String) := none
  bookingDetails : Option BookingDetails := none
  createdAt : Option String := none
deriving DecidableEq, Repr

/-- `insertAppointmentSchema.parse`: required (`NOT NULL`, non-serial)
columns must be present; `id`, `approvedBy`, `pdfUrl` are optional. -/
def parseInsertAppointment (b : AppointmentBody) : Except String InsertAppointment :=
  match b.clientId, b.teamId, b.status, b.collectedBy, b.bookingDetails, b.createdAt with
  | some c, some t, some s, some cb, some bd, some ca =>
    .ok { id := b.id, clientId := c, teamId := t, status := s, collectedBy := cb,
          approvedBy := b.approvedBy.getD none, pdfUrl := b.pdfUrl.getD none,
          bookingDetails := bd, createdAt := ca }
  | _, _, _, _, _, _ => .error "ZodError"

/-- Object spread `{...appointment, ...body}`: each field present in the
body overrides the corresponding field of the record. -/
def spreadBody (a : Appointment) (b : AppointmentBody) : Appointment :=
  { id := b.id.getD a.id, clientId := b.clientId.getD a.clientId,
    teamId := b.teamId.getD a.teamId, status := b.status.getD a.status,
    collectedBy := b.collectedBy.getD a.collectedBy,
    approvedBy := b.approvedBy.getD a.approvedBy,
    pdfUrl := b.pdfUrl.getD a.pdfUrl,
    bookingDetails := b.bookingDetails.getD a.bookingDetails,
    createdAt := b.createdAt.getD a.createdAt }

namespace Routes

open DatabaseStorage

/-- `POST /api/appointments`: 401 unless authenticated, 403 unless the
caller's role is `collector`, then
`insertAppointmentSchema.parse({...req.body, collectedBy: req.user.id,
status: "pending", createdAt: now})` and `storage.createAppointment`. -/
def postAppointments (db : DB) (caller : Option SessionUser)
    (body : AppointmentBody) (now : String) : Response × DB :=
  match caller with
  | none => (.status 401, db)
  | some u =>
    if u.role ≠ "collector" then (.status 403, db)
    else
      match parseInsertAppointment { body with
        collectedBy := some u.id, status := some "pending",
        createdAt := some now } with
      | .error e => (.serverError e, db)
      | .ok ins =>
        match createAppointment db ins now with
        | .error e => (.serverError e, db)
        | .ok (a, db') => (.jsonAppointment a, db')

/-- `PATCH /api/appointments/:id`: 401 / 403 (role ≠ `approver`) / 400
(`parseId` null) / 404 (no such appointment), then
`updateAppointment(id, {...appointment, ...req.body,
approvedBy: req.user.id, status: "approved"})`. -/
def patchAppointment (db : DB) (caller : Option SessionUser)
    (idStr : String) (body : AppointmentBody) : Response × DB :=
  match caller with
  | none => (.status 401, db)
  | some u =>
    if u.role ≠ "approver" then (.status 403, db)
    else
      match parseId idStr with
      | none => (.badRequest "Invalid ID", db)
      | some id =>
        match getAppointment db id with
        | none => (.status 404, db)
        | some appointment =>
          match updateAppointment db id { spreadBody appointment body with
            approvedBy := some u.id, status := "approved" } with
          | .error e => (.serverError e, db)
          | .ok (some upd, db') => (.jsonAppointment upd, db')
          | .ok (none, db') => (.jsonNull, db')

/-- `POST /api/appointments/:id/pdf`: 401 / 403 (role ≠ `approver`) /
400 (`parseId` null) / 404 (no such appointment) / 400 (no file), then
`storePdf(id, bytes)` and `updateAppointment(id, {...appointment,
pdfUrl})`.  The request body is the uploaded file, not JSON. -/
def postAppointmentPdf (db : DB) (caller : Option SessionUser)
    (idStr : String) (file : Option (List Nat)) : Response × DB :=
  match caller with
  | none => (.status 401, db)
  | some u =>
    if u.role ≠ "approver" then (.status 403, db)
    else
      match parseId idStr with
      | none => (.badRequest "Invalid ID", db)
      | some id =>
        match getAppointment db id with
        | none => (.status 404, db)
        | some appointment =>
          match file with
          | none => (.badRequest "No PDF file uploaded", db)
          | some bytes =>
            match updateAppointment (storePdf db id bytes) id { appointment with
              pdfUrl := some ("/api/appointments/" ++ toString id ++ "/download-pdf") } with
            | .error e => (.serverError e, storePdf db id bytes)
            | .ok (some upd, db') => (.jsonAppointment upd, db')
            | .ok (none, db') => (.jsonNull, db')

/-- `GET /api/appointments/:id/download-pdf`: 401 / 400 / 404 (no such
appointment) / 404 (no stored bytes) / the bytes.  Read-only. -/
def getAppointmentDownloadPdf (db : DB) (caller : Option SessionUser)
    (idStr : String) : Response :=
  match caller with
  | none => .status 401
  | some _ =>
    match parseId idStr with
    | none => .badRequest "Invalid ID"
    | some id =>
      match getAppointment db id with
      | none => .status 404
      | some _ =>
        match getPdf db id with
        | none => .status 404
        | some bytes => .pdf bytes

/-- `GET /api/appointments/:id`: 401 / 400 / 404 / the record. -/
def getAppointmentById (db : DB) (caller : Option SessionUser)
    (idStr : String) : Response :=
  match caller with
  | none => .status 401
  | some _ =>
    match parseId idStr with
    | none => .badRequest "Invalid ID"
    | some id =>
      match getAppointment db id with
      | none => .status 404
      | some a => .jsonAppointment a

end Routes

/-- The three boundary operations that can touch appointment rows. -/
inductive BoundaryOp where
  | create (caller : Option SessionUser) (body : AppointmentBody) (now : String)
  | patch (caller : Option SessionUser) (idStr : String) (body : AppointmentBody)
  | uploadPdf (caller : Option SessionUser) (idStr : String) (file : Option (List Nat))
deriving DecidableEq, Repr

/-- Run a boundary operation against a database state. -/
def runOp (db : DB) : BoundaryOp → Response × DB
  | .create caller body now => Routes.postAppointments db caller body now
  | .patch caller idStr body => Routes.patchAppointment db caller idStr body
  | .uploadPdf caller idStr file => Routes.postAppointmentPdf db caller idStr file

/-! ## Password hashing (`hashPassword` in the storage module,
`comparePasswords` in `server/routes.ts`)

Passwords and salts are `List Char`; `Buffer`s are `List Nat` with
entries < 256.  The scrypt key-derivation function itself lives in
Node's `crypto` library, outside this repository; theorems about it are
parametrised over an arbitrary `scrypt` function together with the
standard symbolic-model idealisations of a key-derivation function
(collision-freeness in the password for a fixed salt, and absence of
encode-fixpoints, an instance of preimage resistance). -/

/-- Lower-case hex digit for a value < 16 (`Buffer.toString("hex")`). -/
def hexDigit (n : Nat) : Char :=
  if n < 10 then Char.ofNat (48 + n) else Char.ofNat (87 + n)

/-- Two hex digits of one byte. -/
def hexEncodeByte (b : Nat) : List Char :=
  [hexDigit (b / 16 % 16), hexDigit (b % 16)]

/-- `buf.toString("hex")`. -/
def hexEncode (bs : List Nat) : List Char :=
  (bs.map hexEncodeByte).flatten

/-- Value of one hex digit character (`0-9`, `a-f`). -/
def hexDigitVal (c : Char) : Nat :=
  if 48 ≤ c.toNat ∧ c.toNat ≤ 57 then c.toNat - 48
  else if 97 ≤ c.toNat ∧ c.toNat ≤ 102 then c.toNat - 87
  else 0

/-- `Buffer.from(s, "hex")`: consume pairs of hex digits. -/
def hexDecode : List Char → List Nat
  | c1 :: c2 :: rest => (hexDigitVal c1 * 16 + hexDigitVal c2) :: hexDecode rest
  | _ => []

/-- `s.split(".")`. -/
def splitOnDot : List Char → List (List Char)
  | [] => [[]]
  | c :: rest =>
    if c = '.' then [] :: splitOnDot rest
    else
      match splitOnDot rest with
      | [] => [[c]]
      | p :: ps => (c :: p) :: ps

/-- `crypto.timingSafeEqual(a, b)`: throws (`none`) when the buffers
have different lengths, otherwise reports byte equality. -/
def timingSafeEqual (a b : List Nat) : Option Bool :=
  if a.length = b.length then some (a = b) else none

/-- `hashPassword(password)` with the random salt made explicit:
`` `${buf.toString("hex")}.${salt}` `` where `buf = scrypt(password, salt, 64)`. -/
def hashPassword (scrypt : List Char → List Char → List Nat)
    (password salt : List Char) : List Char :=
  hexEncode (scrypt password salt) ++ '.' :: salt

/-- `comparePasswords(supplied, stored)`: split the stored string at the
dot into hash and salt, recompute scrypt of the supplied password with
that salt, and compare with `timingSafeEqual`.  A stored string without
a dot leaves the salt `undefined` and scrypt throws (`none`). -/
def comparePasswords (scrypt : List Char → List Char → List Nat)
    (supplied stored : List Char) : Option Bool :=
  match splitOnDot stored with
  | hashed :: salt :: _ => timingSafeEqual (hexDecode hashed) (scrypt supplied salt)
  | _ => none

/-- The fields of a user row as persisted by `createUser`. -/
structure StoredUser where
  username : List Char
  password : List Char
  role : List Char
deriving DecidableEq, Repr

/-- `createUser(insertUser)` (storage module), with the random salt made
explicit: the row is persisted with
`password: await hashPassword(insertUser.password)`. -/
def createUser (scrypt : List Char → List Char → List Nat)
    (salt username password role : List Char) : StoredUser :=
  { username := username, password := hashPassword scrypt password salt,
    role := role }

/-! ## Concrete fixtures used by witnesses and counterexamples -/

/-- A collector user with id 7 assigned to team 3. -/
def collectorUser : User :=
  { id := 7, username := "alice", password := "h.s", role := "collector",
    createdBy := some 1, teamId := some 3 }

/-- A database holding exactly one user row. -/
def dbOneUser : DB := { DB.empty with users := [collectorUser] }

/-! ## Theorems -/

lemma mapSet_find?_self (m : List (Int × List Nat)) (k : Int) (v : List Nat) :
    (DatabaseStorage.mapSet m k v).find? (fun p => p.1 = k) = some (k, v) := by
  induction m with
  | nil => simp [DatabaseStorage.mapSet]
  | cons hd tl ih =>
    obtain ⟨k', v'⟩ := hd
    by_cases h : k' = k
    · simp [DatabaseStorage.mapSet, h]
    · simp [DatabaseStorage.mapSet, h, List.find?, ih]

/-- C8: storing PDF bytes for an appointment id and reading them back
yields exactly those bytes, and reading an id for which no entry exists
in the blob store yields absent. -/
theorem claim_C8 (db : DB) (id : Int) (buf : List Nat) :
    DatabaseStorage.getPdf (DatabaseStorage.storePdf db id buf) id = some buf
    ∧ ((∀ p ∈ db.pdfStorage, p.1 ≠ id) → DatabaseStorage.getPdf db id = none) := by
  constructor
  · simp [DatabaseStorage.getPdf, DatabaseStorage.storePdf, mapSet_find?_self]
  · intro h
    have : db.pdfStorage.find? (fun p => p.1 = id) = none := by
      rw [List.find?_eq_none]
      intro p hp
      simpa using h p hp
    simp [DatabaseStorage.getPdf, this]

/-- Witness for C8 at a concrete store and buffer. -/
theorem claim_C8_witness :
    DatabaseStorage.getPdf (DatabaseStorage.storePdf DB.empty 1 [37, 80, 68, 70]) 1
      = some [37, 80, 68, 70]
    ∧ DatabaseStorage.getPdf DB.empty 1 = none :=
  ⟨(claim_C8 DB.empty 1 [37, 80, 68, 70]).1,
   (claim_C8 DB.empty 1 [37, 80, 68, 70]).2 (by intro p hp; simp [DB.empty] at hp)⟩

/-- C9: `removeTeamMember(teamId, userId)` only nulls the user's
`teamId` column: it is the literal delegation to
`updateUserTeam(userId, null)`, it leaves the `team_members` table
untouched, its result does not depend on the `teamId` argument (the
boundary's sentinel `0` included), and afterwards the user's row (if
present) carries `teamId = null`. -/
theorem claim_C9 (db : DB) (teamId teamId' userId : Int) :
    DatabaseStorage.removeTeamMember db teamId userId
      = DatabaseStorage.updateUserTeam db userId none
    ∧ (DatabaseStorage.removeTeamMember db teamId userId).teamMembers = db.teamMembers
    ∧ DatabaseStorage.removeTeamMember db teamId userId
      = DatabaseStorage.removeTeamMember db teamId' userId
    ∧ ∀ x ∈ (DatabaseStorage.removeTeamMember db teamId userId).users,
        x.id = userId → x.teamId = none := by
  refine ⟨rfl, rfl, rfl, ?_⟩
  intro x hx hid
  simp only [DatabaseStorage.removeTeamMember, DatabaseStorage.updateUserTeam,
    List.mem_map] at hx
  obtain ⟨y, -, rfl⟩ := hx
  by_cases h : y.id = userId
  · simp [h]
  · rw [if_neg h] at hid
    exact absurd hid h

/-- Witness for C9 at a concrete database (boundary sentinel `teamId = 0`). -/
theorem claim_C9_witness :
    (DatabaseStorage.removeTeamMember dbOneUser 0 7
        = DatabaseStorage.updateUserTeam dbOneUser 7 none
      ∧ (DatabaseStorage.removeTeamMember dbOneUser 0 7).teamMembers
        = dbOneUser.teamMembers
      ∧ DatabaseStorage.removeTeamMember dbOneUser 0 7
        = DatabaseStorage.removeTeamMember dbOneUser 3 7
      ∧ ∀ x ∈ (DatabaseStorage.removeTeamMember dbOneUser 0 7).users,
          x.id = 7 → x.teamId = none) :=
  claim_C9 dbOneUser 0 3 7

/-- C10: every successfully persisted appointment carries
`bookingDetails = { date: now }`, the insertion-time clock value,
whatever `bookingDetails` the insert record carried. -/
theorem claim_C10 (db : DB) (ins : InsertAppointment) (now : String)
    (a : Appointment) (db' : DB)
    (h : DatabaseStorage.createAppointment db ins now = .ok (a, db')) :
    a.bookingDetails = { date := now } ∧ a ∈ db'.appointments := by
  simp only [DatabaseStorage.createAppointment] at h
  split at h
  · exact Except.noConfusion h
  · simp only [Except.ok.injEq, Prod.mk.injEq] at h
    obtain ⟨rfl, rfl⟩ := h
    exact ⟨rfl, by simp⟩

/-- Insert record carrying a caller-supplied `bookingDetails`. -/
def insStale : InsertAppointment :=
  { id := none, clientId := 1, teamId := 1, status := "pending",
    collectedBy := 2, approvedBy := none, pdfUrl := none,
    bookingDetails := { date := "1999-01-01" }, createdAt := "t0" }

/-- The appointment `createAppointment` persists for `insStale` at clock
value `"2026-10-11"`. -/
def apptFresh : Appointment :=
  { id := 1, clientId := 1, teamId := 1, status := "pending",
    collectedBy := 2, approvedBy := none, pdfUrl := none,
    bookingDetails := { date := "2026-10-11" }, createdAt := "t0" }

/-- Witness for C10: a caller-supplied `bookingDetails` is discarded in
favour of the insertion-time clock. -/
theorem claim_C10_witness :
    apptFresh.bookingDetails = { date := "2026-10-11" }
    ∧ apptFresh ∈ ({ DB.empty with appointments := [apptFresh] } : DB).appointments :=
  claim_C10 DB.empty insStale "2026-10-11" apptFresh
    { DB.empty with appointments := [apptFresh] } (by rfl)

lemma parseInsertAppointment_ok (b : AppointmentBody) (ins : InsertAppointment)
    (h : parseInsertAppointment b = .ok ins) :
    b.status = some ins.status ∧ b.collectedBy = some ins.collectedBy := by
  unfold parseInsertAppointment at h
  split at h
  case _ c t s cb bd ca hc ht hs hcb hbd hca =>
    simp only [Except.ok.injEq] at h
    subst h
    exact ⟨hs, hcb⟩
  case _ => exact Except.noConfusion h

lemma createAppointment_ok (db : DB) (ins : InsertAppointment) (now : String)
    (a : Appointment) (db' : DB)
    (h : DatabaseStorage.createAppointment db ins now = .ok (a, db')) :
    a.status = ins.status ∧ a.collectedBy = ins.collectedBy
    ∧ a.bookingDetails = { date := now } ∧ a ∈ db'.appointments
    ∧ db'.appointments = db.appointments ++ [a] := by
  simp only [DatabaseStorage.createAppointment] at h
  split at h
  · exact Except.noConfusion h
  · simp only [Except.ok.injEq, Prod.mk.injEq] at h
    obtain ⟨rfl, rfl⟩ := h
    exact ⟨rfl, rfl, rfl, by simp, rfl⟩

lemma updateAppointment_ok (db : DB) (id : Int) (rec upd : Appointment) (db' : DB)
    (h : DatabaseStorage.updateAppointment db id rec = .ok (some upd, db')) :
    upd = rec ∧ rec ∈ db'.appointments := by
  unfold DatabaseStorage.updateAppointment at h
  split at h
  · exact Except.noConfusion h
  · split at h
    case _ => simp at h
    case _ x heq =>
      split at h
      · exact Except.noConfusion h
      · simp only [Except.ok.injEq, Prod.mk.injEq, Option.some.injEq] at h
        obtain ⟨rfl, rfl⟩ := h
        have hxid : x.id = id := by simpa using List.find?_some heq
        have hxmem : x ∈ db.appointments := List.mem_of_find?_eq_some heq
        refine ⟨rfl, ?_⟩
        have hfx : (fun a => if a.id = id then rec else a) x = rec := by simp [hxid]
        have hmem2 := List.mem_map_of_mem (fun a => if a.id = id then rec else a) hxmem
        rw [hfx] at hmem2
        exact hmem2

/-- C2: a successful authenticated-collector appointment creation
persists the appointment with `status = "pending"` and
`collectedBy` equal to the caller's user id, whatever `status` or
`collectedBy` the request body carried. -/
theorem claim_C2 (db : DB) (u : SessionUser) (body : AppointmentBody)
    (now : String) (db' : DB) (a : Appointment)
    (hrole : u.role = "collector")
    (h : Routes.postAppointments db (some u) body now = (.jsonAppointment a, db')) :
    a.status = "pending" ∧ a.collectedBy = u.id ∧ a ∈ db'.appointments := by
  simp only [Routes.postAppointments, hrole, ne_eq, not_true_eq_false, if_false,
    ite_false] at h
  split at h
  · simp at h
  case _ ins hins =>
    split at h
    · simp at h
    case _ a0 db0 hcr =>
      simp only [Prod.mk.injEq, Response.jsonAppointment.injEq] at h
      obtain ⟨rfl, rfl⟩ := h
      obtain ⟨hs, hcb⟩ := parseInsertAppointment_ok _ _ hins
      obtain ⟨has, hacb, -, hmem, -⟩ := createAppointment_ok _ _ _ _ _ hcr
      simp only [Option.some.injEq] at hs hcb
      exact ⟨has.trans hs.symm, hacb.trans hcb.symm, hmem⟩

/-- Request body that tries to smuggle in `status`/`collectedBy`. -/
def bodySneaky : AppointmentBody :=
  { clientId := some 4, teamId := some 3, status := some "approved",
    collectedBy := some 999, bookingDetails := some { date := "1999-01-01" },
    createdAt := some "t9" }

/-- The appointment the boundary persists for `bodySneaky` from
collector 7 at clock `"2026-01-01"`. -/
def apptC2 : Appointment :=
  { id := 1, clientId := 4, teamId := 3, status := "pending",
    collectedBy := 7, approvedBy := none, pdfUrl := none,
    bookingDetails := { date := "2026-01-01" }, createdAt := "2026-01-01" }

/-- Witness for C2: body-supplied `status = "approved"` and
`collectedBy = 999` are overridden with `"pending"` and the caller id. -/
theorem claim_C2_witness :
    apptC2.status = "pending" ∧ apptC2.collectedBy = 7
    ∧ apptC2 ∈ ({ DB.empty with appointments := [apptC2] } : DB).appointments :=
  claim_C2 DB.empty ⟨7, "collector"⟩ bodySneaky "2026-01-01"
    { DB.empty with appointments := [apptC2] } apptC2 rfl (by rfl)

/-- C3: a PATCH by an authenticated non-approver is rejected with 403
and leaves the database unchanged; a PATCH by an approver that returns
an appointment yields `status = "approved"` and `approvedBy = caller id`
(overriding anything the body supplied for those fields), and the
record is persisted. -/
theorem claim_C3 (db : DB) (u : SessionUser) (idStr : String) (body : AppointmentBody) :
    (u.role ≠ "approver" →
      Routes.patchAppointment db (some u) idStr body = (.status 403, db))
    ∧ (u.role = "approver" →
      ∀ (db' : DB) (a : Appointment),
        Routes.patchAppointment db (some u) idStr body = (.jsonAppointment a, db') →
        a.status = "approved" ∧ a.approvedBy = some u.id ∧ a ∈ db'.appointments) := by
  constructor
  · intro hrole
    simp [Routes.patchAppointment, hrole]
  · intro hrole db' a h
    simp only [Routes.patchAppointment, hrole, ne_eq, not_true_eq_false, if_false,
      ite_false] at h
    split at h
    · simp at h
    split at h
    · simp at h
    case _ id hid appointment happ =>
      split at h
      · simp at h
      case _ upd db0 hupd =>
        simp only [Prod.mk.injEq, Response.jsonAppointment.injEq] at h
        obtain ⟨rfl, rfl⟩ := h
        obtain ⟨rfl, hmem⟩ := updateAppointment_ok _ _ _ _ _ hupd
        exact ⟨rfl, rfl, hmem⟩
      · simp at h

/-- A pending appointment with id 1. -/
def apptPend : Appointment :=
  { id := 1, clientId := 4, teamId := 3, status := "pending",
    collectedBy := 7, approvedBy := none, pdfUrl := none,
    bookingDetails := { date := "d1" }, createdAt := "t1" }

/-- A database holding exactly the pending appointment `apptPend`. -/
def dbPending : DB := { DB.empty with appointments := [apptPend] }

/-- PATCH body that tries to keep `status = "pending"` and forge
`approvedBy = 123`. -/
def bodyForge : AppointmentBody :=
  { status := some "pending", approvedBy := some (some 123) }

/-- What the PATCH by approver 9 actually persists for `apptPend`. -/
def apptApproved : Appointment :=
  { id := 1, clientId := 4, teamId := 3, status := "approved",
    collectedBy := 7, approvedBy := some 9, pdfUrl := none,
    bookingDetails := { date := "d1" }, createdAt := "t1" }

/-- Witness for C3: collector 9 gets 403 with no change; approver 9
approves despite the forged body fields. -/
theorem claim_C3_witness :
    Routes.patchAppointment dbPending (some ⟨9, "collector"⟩) "1" bodyForge
      = (.status 403, dbPending)
    ∧ (apptApproved.status = "approved" ∧ apptApproved.approvedBy = some 9
       ∧ apptApproved ∈ ({ DB.empty with appointments := [apptApproved] } : DB).appointments) :=
  ⟨(claim_C3 dbPending ⟨9, "collector"⟩ "1" bodyForge).1 (by decide),
   (claim_C3 dbPending ⟨9, "approver"⟩ "1" bodyForge).2 rfl
     { DB.empty with appointments := [apptApproved] } apptApproved (by rfl)⟩

/-- A user row whose id is 0 (reachable: the insert schema leaves the
serial `id` optional but accepts an explicit one, and Postgres accepts
an explicit 0 for a `serial` column). -/
def userZero : User :=
  { id := 0, username := "zero", password := "h.s", role := "collector",
    createdBy := none, teamId := none }

/-- A database holding the id-0 user row. -/
def dbUserZero : DB := { DB.empty with users := [userZero] }

/-- Counterexample to C5: `getUser` has no positive-integer guard — the
invalid id 0 is passed straight to the query, which here returns a row,
not absent. -/
theorem claim_C5_counterexample :
    ¬ (DatabaseStorage.getUser dbUserZero 0 = none) := by decide

/-- C5 (amended): `getTeam`, `getClient` and `getAppointment` short-
circuit every non-positive id to absent; `getUser` lacks the guard and
queries with the id as given, so it returns absent for a non-positive id
only when every stored user id is positive. -/
theorem claim_C5_amended (db : DB) (id : Int) (hid : id < 1) :
    DatabaseStorage.getTeam db id = none
    ∧ DatabaseStorage.getClient db id = none
    ∧ DatabaseStorage.getAppointment db id = none
    ∧ ((∀ x ∈ db.users, 1 ≤ x.id) → DatabaseStorage.getUser db id = none) := by
  refine ⟨?_, ?_, ?_, ?_⟩
  · simp [DatabaseStorage.getTeam, hid]
  · simp [DatabaseStorage.getClient, hid]
  · simp [DatabaseStorage.getAppointment, hid]
  · intro hpos
    rw [DatabaseStorage.getUser, List.find?_eq_none]
    intro x hx
    have := hpos x hx
    simp only [decide_eq_true_eq]
    omega

/-- Witness for the amended C5 at id 0 on a store whose user ids are
positive. -/
theorem claim_C5_amended_witness :
    DatabaseStorage.getTeam dbOneUser 0 = none
    ∧ DatabaseStorage.getClient dbOneUser 0 = none
    ∧ DatabaseStorage.getAppointment dbOneUser 0 = none
    ∧ DatabaseStorage.getUser dbOneUser 0 = none :=
  have h := claim_C5_amended dbOneUser 0 (by decide)
  ⟨h.1, h.2.1, h.2.2.1, h.2.2.2 (by decide)⟩

/-- Counterexample to C6: the id string `"0"` parses to the
non-positive integer 0, yet the boundary does not reject it with the
bad-input signal — the request reaches the Entity Store, whose guard
yields absent, surfacing as 404. -/
theorem claim_C6_counterexample :
    parseId "0" = some 0
    ∧ Routes.getAppointmentById DB.empty (some ⟨1, "admin"⟩) "0"
        ≠ .badRequest "Invalid ID"
    ∧ Routes.getAppointmentById DB.empty (some ⟨1, "admin"⟩) "0"
        = .status 404 := by
  refine ⟨by decide, by decide, by decide⟩

/-- C6 (amended): only non-numeric id strings (where `parseInt` yields
`NaN`) are rejected with the bad-input signal before the store is
consulted; a numeric but non-positive id passes through to the Entity
Store, whose guard returns absent, and the boundary reports 404. -/
theorem claim_C6_amended (db : DB) (u : SessionUser) (idStr : String) :
    (parseId idStr = none →
      Routes.getAppointmentById db (some u) idStr = .badRequest "Invalid ID")
    ∧ (∀ i : Int, parseId idStr = some i → i < 1 →
      Routes.getAppointmentById db (some u) idStr = .status 404) := by
  constructor
  · intro h
    simp [Routes.getAppointmentById, h]
  · intro i h hi
    simp [Routes.getAppointmentById, h, DatabaseStorage.getAppointment, hi]

/-- Witness for the amended C6: `"abc"` is rejected as bad input,
`"0"` becomes a store miss reported as 404. -/
theorem claim_C6_amended_witness :
    Routes.getAppointmentById dbPending (some ⟨1, "admin"⟩) "abc"
      = .badRequest "Invalid ID"
    ∧ Routes.getAppointmentById dbPending (some ⟨1, "admin"⟩) "0"
      = .status 404 :=
  ⟨(claim_C6_amended dbPending ⟨1, "admin"⟩ "abc").1 (by decide),
   (claim_C6_amended dbPending ⟨1, "admin"⟩ "0").2 0 (by decide) (by decide)⟩

/-- Counterexample to C7: the PDF download for an existing appointment
with no stored bytes and for a missing appointment produce the *same*
observable outcome, `sendStatus(404)` — the two not-found signals are
not distinct. -/
theorem claim_C7_counterexample :
    Routes.getAppointmentDownloadPdf dbPending (some ⟨1, "admin"⟩) "1"
      = .status 404
    ∧ Routes.getAppointmentDownloadPdf DB.empty (some ⟨1, "admin"⟩) "1"
      = .status 404 := by
  refine ⟨by decide, by decide⟩

/-- C7 (amended): blob absence for an existing appointment yields
not-found (404), checked only after the appointment lookup succeeds,
but the signal is identical to the one for a missing appointment. -/
theorem claim_C7_amended (db : DB) (u : SessionUser) (idStr : String) (i : Int)
    (hparse : parseId idStr = some i) :
    (∀ a, DatabaseStorage.getAppointment db i = some a →
      DatabaseStorage.getPdf db i = none →
      Routes.getAppointmentDownloadPdf db (some u) idStr = .status 404)
    ∧ (DatabaseStorage.getAppointment db i = none →
      Routes.getAppointmentDownloadPdf db (some u) idStr = .status 404) := by
  constructor
  · intro a ha hpdf
    simp [Routes.getAppointmentDownloadPdf, hparse, ha, hpdf]
  · intro ha
    simp [Routes.getAppointmentDownloadPdf, hparse, ha]

/-- Witness for the amended C7 on concrete stores. -/
theorem claim_C7_amended_witness :
    Routes.getAppointmentDownloadPdf dbPending (some ⟨2, "approver"⟩) "1"
      = .status 404
    ∧ Routes.getAppointmentDownloadPdf dbPending (some ⟨2, "approver"⟩) "2"
      = .status 404 :=
  ⟨(claim_C7_amended dbPending ⟨2, "approver"⟩ "1" 1 (by decide)).1 apptPend
      (by decide) (by decide),
   (claim_C7_amended dbPending ⟨2, "approver"⟩ "2" 2 (by decide)).2 (by decide)⟩

/-! ## Status monotonicity (C1) -/

/-- No appointment row visible before and after a step moves from
status `"approved"` to any other status. -/
def ApprovedPreserved (pre post : List Appointment) : Prop :=
  ∀ (i : Int) (a a' : Appointment),
    pre.find? (fun x => x.id = i) = some a →
    post.find? (fun x => x.id = i) = some a' →
    a.status = "approved" → a'.status = "approved"

lemma approvedPreserved_refl (l : List Appointment) : ApprovedPreserved l l := by
  intro i a a' h h' hs
  rw [h, Option.some.injEq] at h'
  rw [← h']
  exact hs

lemma approvedPreserved_append (l : List Appointment) (new : Appointment) :
    ApprovedPreserved l (l ++ [new]) := by
  intro i a a' h h' hs
  rw [List.find?_append, h] at h'
  have h2 : a = a' := Option.some.inj h'
  rw [← h2]
  exact hs

lemma find?_map_update (l : List Appointment) (id i : Int) (rec : Appointment)
    (hcond : rec.id = id ∨ (i ≠ id ∧ i ≠ rec.id)) :
    (l.map (fun x => if x.id = id then rec else x)).find? (fun x => x.id = i)
      = (l.find? (fun x => x.id = i)).map (fun x => if x.id = id then rec else x) := by
  induction l with
  | nil => rfl
  | cons x tl ih =>
    simp only [List.map_cons]
    by_cases hx : x.id = id
    · by_cases hi : x.id = i
      · rcases hcond with hrec | hii
        · have hrec' : rec.id = i := by rw [hrec, ← hx, hi]
          rw [List.find?_cons_of_pos _ (by simpa [hx] using hrec'),
            List.find?_cons_of_pos _ (by simpa using hi)]
          simp [hx]
        · exact absurd (hi ▸ hx ▸ rfl) (Ne.symm hii.1)
      · have hrecne : ¬ rec.id = i := by
          rcases hcond with hrec | hii
          · rw [hrec, ← hx]; exact hi
          · exact fun hcon => hii.2 hcon.symm
        rw [List.find?_cons_of_neg _ (by simpa [hx] using hrecne),
          List.find?_cons_of_neg _ (by simpa using hi)]
        exact ih
    · by_cases hi : x.id = i
      · rw [List.find?_cons_of_pos _ (by simpa [hx] using hi),
          List.find?_cons_of_pos _ (by simpa using hi)]
        simp [hx]
      · rw [List.find?_cons_of_neg _ (by simpa [hx] using hi),
          List.find?_cons_of_neg _ (by simpa using hi)]
        exact ih

lemma find?_map_update_none (l : List Appointment) (id : Int) (rec : Appointment)
    (hrec : rec.id ≠ id) :
    (l.map (fun x => if x.id = id then rec else x)).find? (fun x => x.id = id)
      = none := by
  rw [List.find?_eq_none]
  intro y hy
  rw [List.mem_map] at hy
  obtain ⟨x, -, rfl⟩ := hy
  by_cases h : x.id = id
  · simp [h, hrec]
  · simp [h]

lemma approvedPreserved_update (l : List Appointment) (id : Int)
    (appt rec : Appointment)
    (hfind : l.find? (fun x => x.id = id) = some appt)
    (hok : rec.id = id ∨ ¬ (l.any (fun x => x.id = rec.id) = true))
    (hstat : rec.status = "approved" ∨ rec.status = appt.status) :
    ApprovedPreserved l (l.map (fun x => if x.id = id then rec else x)) := by
  intro i a a' h h' hs
  rcases hok with hA | hB
  · rw [find?_map_update l id i rec (Or.inl hA), h, Option.map_some',
      Option.some.injEq] at h'
    by_cases hai : a.id = id
    · have : i = id := by
        have := List.find?_some h
        simp only [decide_eq_true_eq] at this
        rw [← this, hai]
      subst this
      have haeq : a = appt := by
        rw [h] at hfind
        exact (Option.some.injEq _ _).mp hfind
      rw [← h', if_pos hai]
      rcases hstat with h1 | h2
      · exact h1
      · rw [h2, ← haeq]
        exact hs
    · rw [← h', if_neg hai]
      exact hs
  · by_cases hiid : i = id
    · subst hiid
      have hrecne : rec.id ≠ i := fun hcon => by
        rcases hstat with _ | _ <;>
          exact hB (List.any_eq_true.mpr ⟨appt, List.mem_of_find?_eq_some hfind,
            by simpa using ((by simpa using List.find?_some hfind : appt.id = i).trans hcon.symm)⟩)
      rw [find?_map_update_none l i rec hrecne] at h'
      exact Option.noConfusion h'
    · by_cases hirec : i = rec.id
      · exfalso
        apply hB
        refine List.any_eq_true.mpr ⟨a, List.mem_of_find?_eq_some h, ?_⟩
        have := List.find?_some h
        simp only [decide_eq_true_eq] at this
        simp [this, hirec]
      · rw [find?_map_update l id i rec (Or.inr ⟨hiid, hirec⟩), h, Option.map_some',
          Option.some.injEq] at h'
        have hane : a.id ≠ id := by
          have := List.find?_some h
          simp only [decide_eq_true_eq] at this
          rw [this]; exact hiid
        rw [← h', if_neg hane]
        exact hs

lemma getAppointment_find? (db : DB) (id : Int) (a : Appointment)
    (h : DatabaseStorage.getAppointment db id = some a) :
    db.appointments.find? (fun x => x.id = id) = some a := by
  unfold DatabaseStorage.getAppointment at h
  split at h
  · exact Option.noConfusion h
  · exact h

lemma updateAppointment_ok_shape (db : DB) (id : Int) (rec upd : Appointment)
    (db' : DB)
    (h : DatabaseStorage.updateAppointment db id rec = .ok (some upd, db')) :
    upd = rec
    ∧ db'.appointments = db.appointments.map (fun a => if a.id = id then rec else a)
    ∧ (∃ x, db.appointments.find? (fun a => a.id = id) = some x)
    ∧ (rec.id = id ∨ ¬ (db.appointments.any (fun a => a.id = rec.id) = true)) := by
  unfold DatabaseStorage.updateAppointment at h
  split at h
  · exact Except.noConfusion h
  · split at h
    case _ => simp at h
    case _ x heq =>
      split at h
      case _ hcol => exact Except.noConfusion h
      case _ hcol =>
        simp only [Except.ok.injEq, Prod.mk.injEq, Option.some.injEq] at h
        obtain ⟨rfl, rfl⟩ := h
        refine ⟨rfl, rfl, ⟨x, heq⟩, ?_⟩
        by_cases hr : rec.id = id
        · exact Or.inl hr
        · exact Or.inr (not_and.mp hcol hr)

lemma updateAppointment_none_shape (db : DB) (id : Int) (rec : Appointment)
    (db' : DB)
    (h : DatabaseStorage.updateAppointment db id rec = .ok (none, db')) :
    db' = db := by
  unfold DatabaseStorage.updateAppointment at h
  split at h
  · exact Except.noConfusion h
  · split at h
    case _ =>
      simp only [Except.ok.injEq, Prod.mk.injEq] at h
      exact h.2.symm
    case _ x heq =>
      split at h
      · exact Except.noConfusion h
      · simp at h

lemma c1_create (db : DB) (caller : Option SessionUser) (body : AppointmentBody)
    (now : String) (r : Response) (db' : DB)
    (h : Routes.postAppointments db caller body now = (r, db')) :
    ApprovedPreserved db.appointments db'.appointments := by
  rcases caller with _ | u
  · simp only [Routes.postAppointments] at h
    cases h
    exact approvedPreserved_refl _
  · by_cases hrole : u.role = "collector"
    · simp only [Routes.postAppointments, hrole, ne_eq, not_true_eq_false, if_false,
        ite_false] at h
      generalize parseInsertAppointment { body with
        collectedBy := some u.id, status := some "pending",
        createdAt := some now } = pres at h
      rcases pres with e | ins
      · cases h
        exact approvedPreserved_refl _
      · dsimp only at h
        split at h
        · cases h
          exact approvedPreserved_refl _
        · rename_i a0 db0 hc
          cases h
          obtain ⟨-, -, -, -, happ⟩ := createAppointment_ok _ _ _ _ _ hc
          rw [happ]
          exact approvedPreserved_append _ _
    · simp only [Routes.postAppointments, ne_eq, hrole, not_false_eq_true, if_true,
        ite_true] at h
      cases h
      exact approvedPreserved_refl _

lemma c1_patch (db : DB) (caller : Option SessionUser) (idStr : String)
    (body : AppointmentBody) (r : Response) (db' : DB)
    (h : Routes.patchAppointment db caller idStr body = (r, db')) :
    ApprovedPreserved db.appointments db'.appointments := by
  rcases caller with _ | u
  · simp only [Routes.patchAppointment] at h
    cases h
    exact approvedPreserved_refl _
  · by_cases hrole : u.role = "approver"
    · simp only [Routes.patchAppointment, hrole, ne_eq, not_true_eq_false, if_false,
        ite_false] at h
      generalize parseId idStr = pid at h
      rcases pid with _ | id
      · cases h
        exact approvedPreserved_refl _
      · dsimp only at h
        generalize DatabaseStorage.getAppointment db id = gres at h
        rcases gres with _ | appointment
        · cases h
          exact approvedPreserved_refl _
        · dsimp only at h
          split at h
          · cases h
            exact approvedPreserved_refl _
          · rename_i upd db0 hu
            cases h
            obtain ⟨-, hdb, ⟨x, hx⟩, hok⟩ := updateAppointment_ok_shape _ _ _ _ _ hu
            rw [hdb]
            exact approvedPreserved_update _ _ x _ hx hok (Or.inl rfl)
          · rename_i db0 hu
            cases h
            rw [updateAppointment_none_shape _ _ _ _ hu]
            exact approvedPreserved_refl _
    · simp only [Routes.patchAppointment, ne_eq, hrole, not_false_eq_true, if_true,
        ite_true] at h
      cases h
      exact approvedPreserved_refl _

lemma c1_upload (db : DB) (caller : Option SessionUser) (idStr : String)
    (file : Option (List Nat)) (r : Response) (db' : DB)
    (h : Routes.postAppointmentPdf db caller idStr file = (r, db')) :
    ApprovedPreserved db.appointments db'.appointments := by
  rcases caller with _ | u
  · simp only [Routes.postAppointmentPdf] at h
    cases h
    exact approvedPreserved_refl _
  · by_cases hrole : u.role = "approver"
    · simp only [Routes.postAppointmentPdf, hrole, ne_eq, not_true_eq_false, if_false,
        ite_false] at h
      generalize parseId idStr = pid at h
      rcases pid with _ | id
      · cases h
        exact approvedPreserved_refl _
      · dsimp only at h
        generalize hg : DatabaseStorage.getAppointment db id = gres at h
        rcases gres with _ | appointment
        · cases h
          exact approvedPreserved_refl _
        · dsimp only at h
          rcases file with _ | bytes
          · cases h
            exact approvedPreserved_refl _
          · dsimp only at h
            split at h
            · cases h
              exact approvedPreserved_refl _
            · rename_i upd db0 hu
              cases h
              obtain ⟨-, hdb, ⟨x, hx⟩, hok⟩ := updateAppointment_ok_shape _ _ _ _ _ hu
              rw [hdb]
              have hxa : x = appointment :=
                Option.some.inj (hx.symm.trans (getAppointment_find? db id appointment hg))
              refine approvedPreserved_update _ _ x _ hx hok (Or.inr ?_)
              rw [hxa]
            · rename_i db0 hu
              cases h
              rw [updateAppointment_none_shape _ _ _ _ hu]
              exact approvedPreserved_refl _
    · simp only [Routes.postAppointmentPdf, ne_eq, hrole, not_false_eq_true, if_true,
        ite_true] at h
      cases h
      exact approvedPreserved_refl _

/-- C1: across every boundary operation on appointments (creation,
PATCH approval, PDF upload), an appointment row that was `"approved"`
before the operation and is still present after it is still
`"approved"`: the status never reverts to `"pending"`. -/
theorem claim_C1 (db : DB) (op : BoundaryOp) (r : Response) (db' : DB)
    (h : runOp db op = (r, db'))
    (i : Int) (a a' : Appointment)
    (ha : db.appointments.find? (fun x => x.id = i) = some a)
    (ha' : db'.appointments.find? (fun x => x.id = i) = some a')
    (happr : a.status = "approved") :
    a'.status = "approved" := by
  cases op with
  | create caller body now => exact c1_create db caller body now r db' h i a a' ha ha' happr
  | patch caller idStr body => exact c1_patch db caller idStr body r db' h i a a' ha ha' happr
  | uploadPdf caller idStr file => exact c1_upload db caller idStr file r db' h i a a' ha ha' happr

/-- A database holding exactly the approved appointment `apptApproved`. -/
def dbApproved : DB := { DB.empty with appointments := [apptApproved] }

/-- Witness for C1: a PATCH whose body asks for `status = "pending"`
on an already-approved appointment leaves it approved. -/
theorem claim_C1_witness : apptApproved.status = "approved" :=
  claim_C1 dbApproved
    (.patch (some ⟨9, "approver"⟩) "1" { status := some "pending" })
    (.jsonAppointment apptApproved) dbApproved (by rfl)
    1 apptApproved apptApproved (by rfl) (by rfl) rfl

/-! ## Password round-trip (C4) -/

lemma hexEncodeByte_ne_dot (b : Nat) : ∀ c ∈ hexEncodeByte b, c ≠ '.' := by
  intro c hc
  have h16a : b / 16 % 16 < 16 := Nat.mod_lt _ (by norm_num)
  have h16b : b % 16 < 16 := Nat.mod_lt _ (by norm_num)
  have hdig : ∀ n, n < 16 → hexDigit n ≠ '.' := by decide
  simp only [hexEncodeByte, List.mem_cons, List.mem_singleton, List.not_mem_nil] at hc
  rcases hc with rfl | rfl | hfalse
  · exact hdig _ h16a
  · exact hdig _ h16b
  · exact hfalse.elim

lemma hexEncode_ne_dot (bs : List Nat) : ∀ c ∈ hexEncode bs, c ≠ '.' := by
  intro c hc
  simp only [hexEncode, List.mem_flatten, List.mem_map] at hc
  obtain ⟨l, ⟨b, -, rfl⟩, hcl⟩ := hc
  exact hexEncodeByte_ne_dot b c hcl

lemma splitOnDot_no_dot (b : List Char) (hb : ∀ c ∈ b, c ≠ '.') :
    splitOnDot b = [b] := by
  induction b with
  | nil => rfl
  | cons c rest ih =>
    have hc : c ≠ '.' := hb c (by simp)
    have hrest := ih (fun x hx => hb x (by simp [hx]))
    simp [splitOnDot, hc, hrest]

lemma splitOnDot_append (a b : List Char) (ha : ∀ c ∈ a, c ≠ '.') :
    splitOnDot (a ++ '.' :: b) = a :: splitOnDot b := by
  induction a with
  | nil => simp [splitOnDot]
  | cons c rest ih =>
    have hc : c ≠ '.' := ha c (by simp)
    have hrest := ih (fun x hx => ha x (by simp [hx]))
    simp [splitOnDot, hc, hrest]

lemma hexDigitVal_hexDigit (n : Nat) (hn : n < 16) : hexDigitVal (hexDigit n) = n := by
  revert hn
  revert n
  decide

lemma hexDecode_hexEncodeByte (b : Nat) (hb : b < 256) (rest : List Char) :
    hexDecode (hexEncodeByte b ++ rest) = b :: hexDecode rest := by
  have h16a : b / 16 % 16 < 16 := Nat.mod_lt _ (by norm_num)
  have h16b : b % 16 < 16 := Nat.mod_lt _ (by norm_num)
  simp only [hexEncodeByte, List.cons_append, List.nil_append, hexDecode]
  rw [hexDigitVal_hexDigit _ h16a, hexDigitVal_hexDigit _ h16b]
  have : b / 16 % 16 * 16 + b % 16 = b := by omega
  rw [this]
  rfl

lemma hexDecode_hexEncode (bs : List Nat) (h : ∀ b ∈ bs, b < 256) :
    hexDecode (hexEncode bs) = bs := by
  induction bs with
  | nil => rfl
  | cons b rest ih =>
    have hb : b < 256 := h b (by simp)
    have hrest := ih (fun x hx => h x (by simp [hx]))
    simp only [hexEncode, List.map_cons, List.flatten_cons]
    rw [hexDecode_hexEncodeByte b hb, ← hexEncode, hrest]

/-- C4: with scrypt idealised as a key-derivation function that is
collision-free in the password for each salt (`hinj`), produces bytes
(`hbytes`), and admits no encode-fixpoint — an instance of preimage
resistance (`hnofix`) — the password stored by `createUser` is never the
supplied plaintext, `comparePasswords` accepts the original plaintext,
and rejects every other plaintext (a `none` outcome is
`timingSafeEqual` throwing on a length mismatch, also a rejection). -/
theorem claim_C4 (scrypt : List Char → List Char → List Nat)
    (hinj : ∀ s p q, scrypt p s = scrypt q s → p = q)
    (hbytes : ∀ p s, ∀ b ∈ scrypt p s, b < 256)
    (hnofix : ∀ p s, hexEncode (scrypt p s) ++ '.' :: s ≠ p)
    (username password role salt : List Char) (hsalt : ∀ c ∈ salt, c ≠ '.') :
    (createUser scrypt salt username password role).password ≠ password
    ∧ comparePasswords scrypt password
        ((createUser scrypt salt username password role).password) = some true
    ∧ ∀ pw', pw' ≠ password →
        comparePasswords scrypt pw'
          ((createUser scrypt salt username password role).password) ≠ some true := by
  have hsplit : splitOnDot (hexEncode (scrypt password salt) ++ '.' :: salt)
      = [hexEncode (scrypt password salt), salt] := by
    rw [splitOnDot_append _ _ (hexEncode_ne_dot _), splitOnDot_no_dot _ hsalt]
  have hcmp : ∀ pw', comparePasswords scrypt pw'
      ((createUser scrypt salt username password role).password)
      = timingSafeEqual (scrypt password salt) (scrypt pw' salt) := by
    intro pw'
    simp only [createUser, hashPassword, comparePasswords, hsplit]
    rw [hexDecode_hexEncode _ (hbytes password salt)]
  refine ⟨hnofix password salt, ?_, ?_⟩
  · rw [hcmp password]
    unfold timingSafeEqual
    rw [if_pos rfl]
    exact congrArg some (decide_eq_true rfl)
  · intro pw' hne
    rw [hcmp pw']
    unfold timingSafeEqual
    split
    · intro hcon
      have h2 := of_decide_eq_true (Option.some.inj hcon)
      exact hne (hinj salt pw' password h2.symm)
    · exact Option.noConfusion

/-- A concrete key-derivation function instantiating the scrypt
idealisation for the witness: fixed-width 3-byte big-endian encoding of
each character's code point (every code point is < 2^24). -/
def scryptW (p _s : List Char) : List Nat :=
  (p.map (fun c => [c.toNat / 65536, c.toNat / 256 % 256, c.toNat % 256])).flatten

lemma char_toNat_lt (c : Char) : c.toNat < 1114112 := by
  rcases c.valid with h | ⟨h1, h2⟩
  · exact lt_trans h (by norm_num)
  · exact h2

lemma scryptW_bytes (p s : List Char) : ∀ b ∈ scryptW p s, b < 256 := by
  intro b hb
  simp only [scryptW, List.mem_flatten, List.mem_map] at hb
  obtain ⟨l, ⟨c, -, rfl⟩, hbl⟩ := hb
  have hc := char_toNat_lt c
  simp only [List.mem_cons, List.mem_singleton, List.not_mem_nil] at hbl
  rcases hbl with rfl | rfl | rfl | hfalse
  · omega
  · exact Nat.mod_lt _ (by norm_num)
  · exact Nat.mod_lt _ (by norm_num)
  · exact hfalse.elim

lemma scryptW_inj : ∀ s p q, scryptW p s = scryptW q s → p = q := by
  intro s p
  induction p with
  | nil =>
    intro q h
    cases q with
    | nil => rfl
    | cons d q' => exact absurd h (by simp [scryptW])
  | cons c p' ih =>
    intro q h
    cases q with
    | nil => exact absurd h (by simp [scryptW])
    | cons d q' =>
      simp only [scryptW, List.map_cons, List.flatten_cons, List.cons_append,
        List.nil_append, List.cons.injEq] at h
      obtain ⟨e1, e2, e3, erest⟩ := h
      have hnat : c.toNat = d.toNat := by omega
      have hcd : c = d := by
        have h4 := congrArg Char.ofNat hnat
        rwa [Char.ofNat_toNat, Char.ofNat_toNat] at h4
      subst hcd
      exact congrArg (c :: ·) (ih q' erest)

lemma hexEncode_length (bs : List Nat) : (hexEncode bs).length = 2 * bs.length := by
  induction bs with
  | nil => rfl
  | cons b rest ih =>
    simp only [hexEncode, List.map_cons, List.flatten_cons, List.length_append,
      List.length_cons] at ih ⊢
    simp only [hexEncodeByte, List.length_cons, List.length_nil]
    omega

lemma scryptW_length (p s : List Char) : (scryptW p s).length = 3 * p.length := by
  induction p with
  | nil => rfl
  | cons c p' ih =>
    simp only [scryptW, List.map_cons, List.flatten_cons, List.length_append,
      List.length_cons, List.length_nil] at ih ⊢
    omega

lemma scryptW_nofix : ∀ p s, hexEncode (scryptW p s) ++ '.' :: s ≠ p := by
  intro p s hcon
  have hlen := congrArg List.length hcon
  simp only [List.length_append, List.length_cons, hexEncode_length,
    scryptW_length] at hlen
  omega

/-- Witness for C4 at a concrete instantiation of the scrypt
idealisation and concrete credentials. -/
theorem claim_C4_witness :
    (createUser scryptW ['b'] ['u'] ['a'] ['r']).password ≠ ['a']
    ∧ comparePasswords scryptW ['a']
        ((createUser scryptW ['b'] ['u'] ['a'] ['r']).password) = some true
    ∧ comparePasswords scryptW ['x']
        ((createUser scryptW ['b'] ['u'] ['a'] ['r']).password) ≠ some true :=
  have h := claim_C4 scryptW scryptW_inj scryptW_bytes scryptW_nofix
    ['u'] ['a'] ['r'] ['b'] (by decide)
  ⟨h.1, h.2.1, h.2.2 ['x'] (by decide)⟩
